import Mathlib

/-!
Verification of the chunked PDF-to-CSV conversion pipeline
(`app/pdfconv/utils.py`, `app/pdfconv/config.py`, `app/pdfconv/message_builder.py`,
`app/pdfconv/ai.py`, `app/pdfconv/basic.py`).

Strings are modelled as `String`/`List Char`.  Python's `str.replace`,
`str.strip`, `str.split('\n')`, `'\n'.join` are embedded as executable
functions below (`pyReplace`, `pyStrip`, `pySplitNl`, `pyJoinNl`).
File I/O is modelled by returning the content that would be written;
exceptions are modelled with `Except`/`Option`.
-/

/-- Python whitespace characters recognised by `str.strip()` (ASCII fragment). -/
def isPySpace (c : Char) : Bool :=
  c == ' ' || c == '\t' || c == '\n' || c == '\r' || c == '\x0b' || c == '\x0c'

/-- `str.strip()` on a list of characters: drop whitespace from both ends. -/
def pyStrip (l : List Char) : List Char :=
  ((l.dropWhile isPySpace).reverse.dropWhile isPySpace).reverse

/-- Fuel-driven core of Python's `str.replace(pat, rep)`: scan left to right,
replacing each leftmost non-overlapping occurrence of `pat` by `rep`.
The fuel is an upper bound on the number of scanning steps; callers pass
the length of the string, which always suffices. -/
def pyReplaceAux (pat rep : List Char) : Nat → List Char → List Char
  | 0, s => s
  | _ + 1, [] => []
  | fuel + 1, c :: rest =>
    if pat ≠ [] ∧ pat <+: (c :: rest) then
      rep ++ pyReplaceAux pat rep fuel ((c :: rest).drop pat.length)
    else
      c :: pyReplaceAux pat rep fuel rest

/-- Python's `s.replace(pat, rep)` on lists of characters. -/
def pyReplace (pat rep s : List Char) : List Char :=
  pyReplaceAux pat rep s.length s

/-- Python's `'\n'.join(parts)` on lists of characters. -/
def pyJoinNl : List (List Char) → List Char
  | [] => []
  | [l] => l
  | l :: ls => l ++ '\n' :: pyJoinNl ls

/-- Python's `s.split('\n')` on lists of characters: always returns at least
one part; a separator at either end produces an empty part there. -/
def pySplitNl : List Char → List (List Char)
  | [] => [[]]
  | c :: rest =>
    if c = '\n' then [] :: pySplitNl rest
    else
      match pySplitNl rest with
      | [] => [[c]]
      | l :: ls => (c :: l) :: ls

/-- The fenced-code-block marker of three backticks. -/
def ticks3 : List Char := ['`', '`', '`']

/-- The opening marker of a CSV fenced code block. -/
def ticksCsv : List Char := ['`', '`', '`', 'c', 's', 'v']

/-- `CsvProcessor.clean_response` (utils.py:94-106): raise on empty input,
strip the fenced-code-block markers and surrounding whitespace, raise if
nothing remains. -/
def clean_response (s : String) : Except String String :=
  if s.data = [] then
    Except.error "LLM returned empty response"
  else
    let r := pyStrip (pyReplace ticks3 [] (pyReplace ticksCsv [] s.data))
    if r = [] then Except.error "LLM returned empty CSV after cleaning"
    else Except.ok (String.mk r)

/-- `CsvProcessor.remove_header` (utils.py:108-114): drop the first line when
more than one line exists, else return the input unchanged. -/
def remove_header (s : String) : String :=
  let lines := pySplitNl s.data
  if 1 < lines.length then String.mk (pyJoinNl (lines.drop 1)) else s

/-- Outcome of `page.extract_text()` for one page of a parsed document:
either a string (possibly empty; `None` is folded into `""` by the
source's `or ""`), or a raised per-page extraction error. -/
inductive PageExtract where
  | ok (s : String)
  | err
deriving DecidableEq

/-- The text a page contributes after the source's `or ""` / `except` handling. -/
def pageText : PageExtract → List Char
  | .ok s => s.data
  | .err => []

/-- `PdfUtils.extract_text` (utils.py:72-88) on the parsed page list:
keep the non-empty page texts, return `none` when there are none, else the
newline-joined, stripped text. -/
def extract_text (pages : List PageExtract) : Option String :=
  let pages_text := (pages.map pageText).filter (fun l => !l.isEmpty)
  if pages_text.isEmpty then none
  else some (String.mk (pyStrip (pyJoinNl pages_text)))

/-- A planned chunk (utils.py:6-17): 1-indexed inclusive page range of a
sub-document.  The binary payload is the reconstructed sub-document holding
exactly this page range; its bytes are not modelled. -/
structure PdfChunk where
  start_page : Nat
  end_page : Nat
  total_pages : Nat
deriving DecidableEq

/-- The page range a chunk covers, as the list of its 1-indexed pages. -/
def chunkPages (c : PdfChunk) : List Nat :=
  List.range' c.start_page (c.end_page + 1 - c.start_page)

/-- Loop of `PdfUtils.split_into_chunks` (utils.py:52-68): starting from
0-indexed page `start`, emit a chunk of pages `start+1 .. min (start+ppc) total`
and advance by `ppc`.  Fuel bounds the iterations; `total` always suffices
when `1 ≤ ppc`. -/
def splitGoFuel (total ppc : Nat) : Nat → Nat → List PdfChunk
  | 0, _ => []
  | fuel + 1, start =>
    if start < total then
      { start_page := start + 1, end_page := min (start + ppc) total,
        total_pages := total } :: splitGoFuel total ppc fuel (start + ppc)
    else []

/-- The chunk sequence planned for a document of `total` pages with
`ppc` pages per chunk. -/
def planChunks (total ppc : Nat) : List PdfChunk :=
  splitGoFuel total ppc total 0

/-- `PdfUtils.split_into_chunks` (utils.py:37-70).  Python's
`range(0, total, ppc)` raises `ValueError` for step 0, modelled as `none`. -/
def split_into_chunks (total ppc : Nat) : Option (List PdfChunk) :=
  if ppc = 0 then none else some (planChunks total ppc)

/-- Static per-provider configuration (config.py:24-54). -/
structure ModelConfig where
  model : String
  sdk : String
  max_chunk_pages : Option Nat := none
  api_key_env : Option String := none
  api_base : Option String := none
deriving DecidableEq

/-- `LLMProviderConfig.MODEL_CONFIGS` (config.py:24-54). -/
def MODEL_CONFIGS : List (String × ModelConfig) :=
  [ ("openai",
     { model := "gpt-4o", sdk := "openai" }),
    ("openrouter",
     { model := "nvidia/nemotron-3-nano-30b-a3b:free", sdk := "openai",
       api_base := some "https://openrouter.ai/api/v1",
       api_key_env := some "OPENROUTER_API_KEY" }),
    ("groq",
     { model := "llama-3.3-70b-versatile", sdk := "groq",
       api_key_env := some "GROQ_API_KEY", max_chunk_pages := some 5 }),
    ("google",
     { model := "gemini-2.5-flash-lite", sdk := "google",
       api_key_env := some "GEMINI_API_KEY" }) ]

/-- `LLMProviderConfig.STRUCTURED_MESSAGE_SDKS` (config.py:21). -/
def STRUCTURED_MESSAGE_SDKS : List String := ["openai"]

/-- Dictionary lookup `MODEL_CONFIGS[llm_type]`. -/
def lookupConfig (llm_type : String) : Option ModelConfig :=
  (MODEL_CONFIGS.find? (fun p => p.1 == llm_type)).map Prod.snd

/-- The provider's `max_chunk_pages` override, when configured. -/
def maxChunkPagesOverride (llm_type : String) : Option Nat :=
  (lookupConfig llm_type).bind ModelConfig.max_chunk_pages

/-- `LLMProviderConfig.get_max_chunk_pages` (config.py:56-62): the provider's
`max_chunk_pages` entry when registered and present, else the default. -/
def get_max_chunk_pages (llm_type : String) (dflt : Nat) : Nat :=
  match lookupConfig llm_type with
  | none => dflt
  | some c => c.max_chunk_pages.getD dflt

/-- ASCII `str.lower()`. -/
def pyLower (s : String) : String := String.mk (s.data.map Char.toLower)

/-- `LLMProviderConfig.supports_structured_messages` (config.py:64-69):
membership of the lower-cased id in the provider ids whose `sdk` entry is in
`STRUCTURED_MESSAGE_SDKS`. -/
def supports_structured_messages (llm_type : String) : Bool :=
  let supports :=
    (MODEL_CONFIGS.filter (fun p => decide (p.2.sdk ∈ STRUCTURED_MESSAGE_SDKS))).map Prod.fst
  decide (pyLower llm_type ∈ supports)

/-- The pages-per-chunk value `convert` places in its `ConversionConfig`
(ai.py:163-170). -/
def convert_effective_ppc (llm_type : String) (max_pages_per_chunk : Nat) : Nat :=
  get_max_chunk_pages llm_type max_pages_per_chunk

/-- The pages-per-chunk value `convert_streaming` places in its
`ConversionConfig` (ai.py:247-253): the caller-supplied value, verbatim. -/
def convert_streaming_effective_ppc (_llm_type : String) (max_pages_per_chunk : Nat) : Nat :=
  max_pages_per_chunk

/-- One part of a structured multimodal message (message_builder.py:52-60). -/
inductive MsgPart where
  | text (s : String)
  | image_url (url : String)
deriving DecidableEq

/-- An outbound `HumanMessage`: multi-part structured content, or one
flattened string (message_builder.py:51-71). -/
inductive Message where
  | structured (parts : List MsgPart)
  | flat (text : String)
deriving DecidableEq

/-- A chunk's binary payload, as seen through the external PDF library:
the per-page extraction outcomes a parser would produce (`none` when the
payload cannot be parsed at all), and its base64 encoding. -/
structure ChunkData where
  pages : Option (List PageExtract)
  b64 : String

/-- `PdfUtils.extract_text` applied to raw bytes: the outer
`except Exception: return None` of utils.py:72-88 covers parse failure. -/
def extract_text_bytes (d : ChunkData) : Option String :=
  match d.pages with
  | none => none
  | some ps => extract_text ps

/-- `MessageBuilder.build_message` (message_builder.py:24-71). Python
truthiness makes an extracted `""` fall back to the base64 payload. -/
def build_message (prompt : String) (d : ChunkData) (llm_type : String)
    (use_structured_messages extract_flag : Bool) : Message :=
  let extracted : Option String :=
    if extract_flag then extract_text_bytes d else none
  let hasText : Bool :=
    match extracted with
    | some s => s != ""
    | none => false
  let textOf : String := (extracted.getD "")
  if use_structured_messages && supports_structured_messages llm_type then
    Message.structured
      [MsgPart.text prompt,
       if hasText then MsgPart.text textOf
       else MsgPart.image_url ("data:application/pdf;base64," ++ d.b64)]
  else
    Message.flat
      (prompt ++
        (if hasText then "\n\nExtracted text:\n" ++ textOf
         else "\n\nAttached PDF (base64):\n" ++ ("data:application/pdf;base64," ++ d.b64)))

/-- Outcome of `llm.invoke` for one chunk (ai.py:61-64): the raw response
content, or a raised exception / content-less response. -/
inductive ChunkOutcome where
  | ok (content : String)
  | err (msg : String)
deriving DecidableEq

/-- `PdfConverter._convert_chunk` (ai.py:32-67) for a chunk whose provider
invocation produced `o`: an invocation failure propagates; a successful raw
response is passed through `CsvProcessor.clean_response`, which may itself
raise. -/
def convert_chunk (o : ChunkOutcome) : Except String String :=
  match o with
  | .err m => Except.error m
  | .ok content => clean_response content

/-- The text appended to the batch accumulator for the chunk at index `i`
(ai.py:96-100): header removal applies to non-first chunks when configured
and the cleaned text is non-empty. -/
def appliedText (rh : Bool) (i : Nat) (csv0 : String) : String :=
  if rh ∧ 0 < i ∧ csv0 ≠ "" then remove_header csv0 else csv0

/-- The text appended to the streaming accumulator for the chunk at index `i`
(ai.py:293-295): as in batch, but without the non-empty guard. -/
def streamAppliedText (rh : Bool) (i : Nat) (csv0 : String) : String :=
  if rh ∧ 0 < i then remove_header csv0 else csv0

/-- The cleaned text of a chunk whose conversion succeeded (meaningful only
under that assumption). -/
def okText (o : ChunkOutcome) : String :=
  match convert_chunk o with
  | .ok s => s
  | .error _ => ""

/-- The accumulator entries produced by the successful chunks of `l`, the
first of which has index `i`, in batch mode. -/
def batchTexts (rh : Bool) : Nat → List ChunkOutcome → List String
  | _, [] => []
  | i, o :: rest => appliedText rh i (okText o) :: batchTexts rh (i + 1) rest

/-- The accumulator entries produced by the successful chunks of `l` in
streaming mode. -/
def streamTexts (rh : Bool) : Nat → List ChunkOutcome → List String
  | _, [] => []
  | i, o :: rest => streamAppliedText rh i (okText o) :: streamTexts rh (i + 1) rest

/-- `'\n'.join` on Lean strings. -/
def strJoinNl (xs : List String) : String :=
  String.mk (pyJoinNl (xs.map String.data))

/-- Loop of `PdfConverter._process_chunks` (ai.py:77-106) together with
`PdfConverter._handle_chunk_failure` (ai.py:108-129): on the first chunk
failure, return the joined accumulator when it is non-empty, else raise
`PdfConverterException` carrying the failing chunk's index and the cause;
when every chunk succeeds, return the joined accumulator. -/
def processChunksAux (rh : Bool) : List ChunkOutcome → Nat → List String →
    Except (Nat × String) String
  | [], _, acc => Except.ok (strJoinNl acc)
  | o :: rest, i, acc =>
    match convert_chunk o with
    | .ok csv0 => processChunksAux rh rest (i + 1) (acc ++ [appliedText rh i csv0])
    | .error e => if acc ≠ [] then Except.ok (strJoinNl acc) else Except.error (i, e)

/-- `PdfConverter._process_chunks` (ai.py:69-106) over the chunks' provider
outcomes. -/
def process_chunks (rh : Bool) (outcomes : List ChunkOutcome) :
    Except (Nat × String) String :=
  processChunksAux rh outcomes 0 []

/-- Observable result of consuming a `convert_streaming` generator
(ai.py:276-327): the items yielded in order, and the
`{output}.partial_{i}` sink written by `FileManager.save_partial_results`
(utils.py:130-145) on a chunk failure, holding the failing 0-based chunk
index and the joined accumulator.  Chunk failures never raise: the source
catches every in-loop exception and ends the generator (ai.py:312-320). -/
structure StreamResult where
  yielded : List String
  sinkWritten : Option (Nat × String)
deriving DecidableEq

/-- Loop of `PdfConverter.convert_streaming` (ai.py:277-320): each successful
chunk is appended to the accumulator and yielded; on the first failure the
accumulator is saved to a `partial_{i}` sink when non-empty and an output
path was designated, and the sequence stops. -/
def streamLoop (rh hasOutput : Bool) : List ChunkOutcome → Nat → List String → StreamResult
  | [], _, _ => { yielded := [], sinkWritten := none }
  | o :: rest, i, acc =>
    match convert_chunk o with
    | .ok csv0 =>
      let csv := streamAppliedText rh i csv0
      let r := streamLoop rh hasOutput rest (i + 1) (acc ++ [csv])
      { yielded := csv :: r.yielded, sinkWritten := r.sinkWritten }
    | .error _ =>
      { yielded := [],
        sinkWritten :=
          if acc ≠ [] ∧ hasOutput then some (i, strJoinNl acc) else none }

/-- `PdfConverter.convert_streaming` (ai.py:215-327) after successful
preparation, over the chunks' provider outcomes. -/
def convert_streaming (rh hasOutput : Bool) (outcomes : List ChunkOutcome) : StreamResult :=
  streamLoop rh hasOutput outcomes 0 []

/-- Longest common leading run of two character lists (the inner loop of
basic.py:27-34). -/
def commonPref2 : List Char → List Char → List Char
  | a :: as, b :: bs => if a = b then a :: commonPref2 as bs else []
  | _, _ => []

/-- `_find_common_prefix` (basic.py:21-35), working on the first 1000
characters of each page.  (Lean name shortened from the source's.) -/
def find_common_pref (pages : List (List Char)) : List Char :=
  match pages with
  | [] => []
  | p0 :: rest => rest.foldl (fun acc p => commonPref2 acc (p.take 1000)) (p0.take 1000)

/-- `prefix[: prefix.rfind('\n') + 1]` (basic.py:66-67): keep everything up
to and including the last newline. -/
def takeToLastNl (l : List Char) : List Char :=
  (l.reverse.dropWhile (fun c => !(c == '\n'))).reverse

/-- The masthead-dedupe step of `pdf_to_csv` (basic.py:62-71): compute the
shared leading run, cut it back to whole lines when it contains a newline,
and strip it from every page that starts with it, provided its trimmed
length is at least 10. -/
def dedupe_pages (pages : List (List Char)) : List (List Char) :=
  let pfx0 := find_common_pref pages
  let pfx := if '\n' ∈ pfx0 then takeToLastNl pfx0 else pfx0
  if 10 ≤ (pyStrip pfx).length then
    pages.map (fun p => if pfx <+: p then p.drop pfx.length else p)
  else pages

/-- Fuel-driven collapse of maximal runs of `p`-characters into the single
character `rep` (the effect of `re.sub` with a `X+`-shaped pattern,
basic.py:43/46). -/
def collapseRunsAux (p : Char → Bool) (rep : Char) : Nat → List Char → List Char
  | 0, s => s
  | _ + 1, [] => []
  | fuel + 1, c :: rest =>
    if p c then rep :: collapseRunsAux p rep fuel (rest.dropWhile p)
    else c :: collapseRunsAux p rep fuel rest

/-- Collapse maximal runs of `p`-characters into `rep`. -/
def collapseRuns (p : Char → Bool) (rep : Char) (s : List Char) : List Char :=
  collapseRunsAux p rep s.length s

/-- `_normalize_text` (basic.py:38-47): normalize CRLF, then either collapse
blank-line runs (preserving newlines) or collapse every whitespace run into a
single space, and strip. -/
def normalize_text (t : List Char) (preserve_newlines : Bool) : List Char :=
  let t := pyReplace ['\r', '\n'] ['\n'] t
  if preserve_newlines then pyStrip (collapseRuns (fun c => c == '\n') '\n' t)
  else pyStrip (collapseRuns isPySpace ' ' t)

/-- The names bound at module level in basic.py (lines 1-7 and its three
function definitions).  `csv` is absent: basic.py never imports it. -/
def basicImportedNames : List String :=
  ["PyPDF2", "BytesIO", "re", "List", "pdf_to_text", "_find_common_prefix",
   "_normalize_text", "pdf_to_csv"]

/-- A Python runtime error relevant to basic.py. -/
inductive PyErr where
  | nameError (name : String)
deriving DecidableEq

/-- `pdf_to_csv` (basic.py:50-79) on the parsed page list, returning the CSV
rows it writes.  After extraction and the optional dedupe step, the source
evaluates `csv.writer(csvfile)`; since `csv` is not a bound module name, that
lookup raises `NameError` before any row is written. -/
def pdf_to_csv (pages : List PageExtract) (dedupe_header preserve_newlines : Bool) :
    Except PyErr (List (List String)) :=
  let texts : List (List Char) := pages.map pageText
  let texts := if dedupe_header ∧ 1 < texts.length then dedupe_pages texts else texts
  if "csv" ∈ basicImportedNames then
    Except.ok
      ([["page", "text"]] ++
        (texts.enumFrom 1).map
          (fun pt => [toString pt.1, String.mk (normalize_text pt.2 preserve_newlines)]))
  else Except.error (PyErr.nameError "csv")

lemma pySplitNl_ne_nil : ∀ l : List Char, pySplitNl l ≠ []
  | [] => by simp [pySplitNl]
  | c :: rest => by
    simp only [pySplitNl]
    split
    · simp
    · cases h : pySplitNl rest <;> simp

lemma pyJoinNl_cons_cons (l a : List Char) (ls : List (List Char)) :
    pyJoinNl (l :: a :: ls) = l ++ '\n' :: pyJoinNl (a :: ls) := rfl

lemma pyJoinNl_pySplitNl : ∀ l : List Char, pyJoinNl (pySplitNl l) = l := by
  intro l
  induction l with
  | nil => rfl
  | cons c rest ih =>
    by_cases hc : c = '\n'
    · subst hc
      rw [show pySplitNl ('\n' :: rest) = [] :: pySplitNl rest from by simp [pySplitNl]]
      obtain ⟨a, ls, hs⟩ := List.exists_cons_of_ne_nil (pySplitNl_ne_nil rest)
      rw [hs, pyJoinNl_cons_cons, List.nil_append]
      rw [hs] at ih
      rw [ih]
    · obtain ⟨a, ls, hs⟩ := List.exists_cons_of_ne_nil (pySplitNl_ne_nil rest)
      rw [show pySplitNl (c :: rest) = (c :: a) :: ls from by simp [pySplitNl, hc, hs]]
      rw [hs] at ih
      cases ls with
      | nil => simpa [pyJoinNl] using congrArg (c :: ·) ih
      | cons b bs =>
        rw [pyJoinNl_cons_cons]
        rw [pyJoinNl_cons_cons] at ih
        simpa [List.cons_append] using congrArg (c :: ·) ih

lemma pySplitNl_length_gt_one : ∀ l : List Char, 1 < (pySplitNl l).length ↔ '\n' ∈ l := by
  intro l
  induction l with
  | nil => simp [pySplitNl]
  | cons c rest ih =>
    by_cases hc : c = '\n'
    · subst hc
      rw [show pySplitNl ('\n' :: rest) = [] :: pySplitNl rest from by simp [pySplitNl]]
      have hpos : 0 < (pySplitNl rest).length := List.length_pos.mpr (pySplitNl_ne_nil rest)
      simp only [List.length_cons, List.mem_cons]
      constructor
      · intro _; simp
      · intro _; omega
    · obtain ⟨a, ls, hs⟩ := List.exists_cons_of_ne_nil (pySplitNl_ne_nil rest)
      rw [show pySplitNl (c :: rest) = (c :: a) :: ls from by simp [pySplitNl, hc, hs]]
      rw [hs] at ih
      simp only [List.length_cons] at ih ⊢
      simp only [List.mem_cons]
      constructor
      · intro h; right; exact ih.mp h
      · intro h
        rcases h with h | h
        · exact absurd h.symm hc
        · exact ih.mpr h

lemma pySplitNl_drop_one_join : ∀ l : List Char, '\n' ∈ l →
    pyJoinNl ((pySplitNl l).drop 1) = (l.dropWhile (fun c => !(c == '\n'))).tail := by
  intro l
  induction l with
  | nil => simp
  | cons c rest ih =>
    intro hm
    by_cases hc : c = '\n'
    · subst hc
      rw [show pySplitNl ('\n' :: rest) = [] :: pySplitNl rest from by simp [pySplitNl]]
      simp only [List.drop_succ_cons, List.drop_zero]
      rw [pyJoinNl_pySplitNl]
      simp [List.dropWhile_cons]
    · obtain ⟨a, ls, hs⟩ := List.exists_cons_of_ne_nil (pySplitNl_ne_nil rest)
      rw [show pySplitNl (c :: rest) = (c :: a) :: ls from by simp [pySplitNl, hc, hs]]
      have hm' : '\n' ∈ rest := by
        rcases List.mem_cons.mp hm with h | h
        · exact absurd h.symm hc
        · exact h
      have hj := ih hm'
      rw [hs] at hj
      simp only [List.drop_succ_cons, List.drop_zero] at hj ⊢
      rw [List.dropWhile_cons_of_pos (by simp [hc])]
      exact hj

/-- Claim C9: `remove_header` drops the first newline-separated line exactly
when the input has more than one line (equivalently, contains a newline),
returning the remaining text after the first newline; in particular
`remove_header "a\nb\nc" = "b\nc"` and `remove_header "onlyline" = "onlyline"`. -/
theorem remove_header_spec :
    remove_header "a\nb\nc" = "b\nc" ∧
    remove_header "onlyline" = "onlyline" ∧
    (∀ s : String, '\n' ∉ s.data → remove_header s = s) ∧
    (∀ s : String, '\n' ∈ s.data →
      (remove_header s).data = (s.data.dropWhile (fun c => !(c == '\n'))).tail) := by
  refine ⟨rfl, rfl, ?_, ?_⟩
  · intro s h
    have hlen : ¬ 1 < (pySplitNl s.data).length := fun hl =>
      h ((pySplitNl_length_gt_one s.data).mp hl)
    simp [remove_header, hlen]
  · intro s h
    have hlen : 1 < (pySplitNl s.data).length := (pySplitNl_length_gt_one s.data).mpr h
    simp only [remove_header, if_pos hlen]
    exact pySplitNl_drop_one_join s.data h

/-- Witness for C9 at a concrete input with no newline. -/
theorem remove_header_spec_w : remove_header "x" = "x" :=
  remove_header_spec.2.2.1 "x" (by decide)

/-- Counterexample to claim C4: for provider `groq` (whose configured
override is 5) and caller value 10, the streaming path plans with 10 while
the batch path plans with 5 — the two paths do not use the same effective
pages-per-chunk. -/
theorem effective_ppc_groq_differs :
    convert_streaming_effective_ppc "groq" 10 = 10 ∧
    convert_effective_ppc "groq" 10 = 5 ∧
    convert_streaming_effective_ppc "groq" 10 ≠ convert_effective_ppc "groq" 10 := by
  refine ⟨rfl, by decide, by decide⟩

/-- Claim C4 (amended): only the batch `convert` path resolves the effective
pages-per-chunk as the provider's `max_chunk_pages` override when present,
else the caller-supplied value; the streaming path always plans with the
caller-supplied value, ignoring the override. -/
theorem effective_ppc_paths (llm_type : String) (m : Nat) :
    convert_effective_ppc llm_type m = (maxChunkPagesOverride llm_type).getD m ∧
    convert_streaming_effective_ppc llm_type m = m := by
  refine ⟨?_, rfl⟩
  cases h : lookupConfig llm_type with
  | none => simp [convert_effective_ppc, get_max_chunk_pages, maxChunkPagesOverride, h]
  | some c => simp [convert_effective_ppc, get_max_chunk_pages, maxChunkPagesOverride, h]

/-- Claim C5: intended behavior, evaluated against the code.  basic.py never
imports `csv`, so `pdf_to_csv` raises `NameError` on `csv.writer` for every
input before writing any row — the header row and per-page rows are never
produced. -/
theorem pdf_to_csv_raises_name_error :
    ∀ (pages : List PageExtract) (dh pn : Bool),
      pdf_to_csv pages dh pn = Except.error (PyErr.nameError "csv") := by
  intro pages dh pn
  have h : ¬ ("csv" ∈ basicImportedNames) := by decide
  simp [pdf_to_csv, h]

/-- Counterexample to claim C6: with the literal pages
`"HEADER\ncontentA"` / `"HEADER\ncontentB"`, the shared whole-line run
`"HEADER\n"` has trimmed length 6 < 10, so the dedupe step leaves the pages
unchanged rather than producing `["contentA", "contentB"]`. -/
theorem masthead_dedupe_short_header_cex :
    dedupe_pages ["HEADER\ncontentA".data, "HEADER\ncontentB".data] ≠
      ["contentA".data, "contentB".data] := by decide

/-- Claim C6 (amended): the masthead dedupe strips a shared whole-line run
only when its trimmed length is at least 10 — e.g. with header line
`HEADERLINE123` the pages become `["contentA", "contentB"]` — and pages with
no shared leading run are left unchanged. -/
theorem masthead_dedupe_spec :
    dedupe_pages ["HEADERLINE123\ncontentA".data, "HEADERLINE123\ncontentB".data] =
      ["contentA".data, "contentB".data] ∧
    (∀ pages : List (List Char), find_common_pref pages = [] → dedupe_pages pages = pages) := by
  refine ⟨by decide, ?_⟩
  intro pages h
  simp [dedupe_pages, h, pyStrip]

/-- Witness for C6 (amended) at pages with no shared leading run. -/
theorem masthead_dedupe_spec_w :
    dedupe_pages ["ab".data, "xy".data] = ["ab".data, "xy".data] :=
  masthead_dedupe_spec.2 ["ab".data, "xy".data] (by decide)

/-- Counterexample to claim C7: a single page whose extracted text is the
one-character string `" "` passes the non-empty filter, and the joined text
strips to the empty string — `extract_text` returns `some ""`, a non-None
empty result. -/
theorem extract_text_empty_result_cex :
    extract_text [PageExtract.ok " "] = some "" := by decide

/-- Claim C7 (amended): `extract_text` swallows per-page extraction errors,
treating an erroring page exactly like an empty page; it returns `none`
precisely when no page contributes non-empty text; and a `some` result is the
newline-joined, stripped text of the pages with non-empty content — which may
itself be the empty string when every contributing page text is whitespace. -/
theorem extract_text_spec :
    (∀ ps, extract_text (PageExtract.err :: ps) = extract_text (PageExtract.ok "" :: ps)) ∧
    (∀ ps, extract_text ps = none ↔ ∀ p ∈ ps, pageText p = []) ∧
    (∀ ps s, extract_text ps = some s →
      s.data = pyStrip (pyJoinNl ((ps.map pageText).filter (fun l => !l.isEmpty)))) := by
  refine ⟨fun ps => rfl, ?_, ?_⟩
  · intro ps
    simp only [extract_text]
    constructor
    · intro h
      by_cases he : ((ps.map pageText).filter (fun l => !l.isEmpty)).isEmpty
      · intro p hp
        have hall := List.filter_eq_nil_iff.mp (List.isEmpty_iff.mp he)
        have := hall (pageText p) (List.mem_map_of_mem pageText hp)
        simpa using this
      · rw [if_neg he] at h
        exact absurd h (by simp)
    · intro h
      have he : ((ps.map pageText).filter (fun l => !l.isEmpty)) = [] := by
        refine List.filter_eq_nil_iff.mpr ?_
        intro a ha
        obtain ⟨p, hp, rfl⟩ := List.mem_map.mp ha
        simp [h p hp]
      rw [if_pos (List.isEmpty_iff.mpr he)]
  · intro ps s h
    simp only [extract_text] at h
    by_cases he : ((ps.map pageText).filter (fun l => !l.isEmpty)).isEmpty
    · rw [if_pos he] at h
      exact absurd h (by simp)
    · rw [if_neg he] at h
      have := Option.some.inj h
      rw [← this]

/-- Witness for C7 (amended) at a one-page document with text `"a"`. -/
theorem extract_text_spec_w :
    ("a" : String).data =
      pyStrip (pyJoinNl (([PageExtract.ok "a"].map pageText).filter (fun l => !l.isEmpty))) :=
  extract_text_spec.2.2 [PageExtract.ok "a"] "a" rfl

/-- Claim C10: the provider ids whose configured sdk is in
`STRUCTURED_MESSAGE_SDKS` (that is, `"openai"`) are exactly `openai` and
`openrouter`; `supports_structured_messages` returns `true` precisely on
those two registered ids; and with `use_structured_messages` enabled a chunk
for `openrouter` is built as a multi-part structured message whose first part
is the prompt, never as the flattened single-string fallback. -/
theorem structured_support_spec :
    ((MODEL_CONFIGS.filter (fun p => decide (p.2.sdk ∈ STRUCTURED_MESSAGE_SDKS))).map Prod.fst
        = ["openai", "openrouter"]) ∧
    supports_structured_messages "openai" = true ∧
    supports_structured_messages "openrouter" = true ∧
    supports_structured_messages "groq" = false ∧
    supports_structured_messages "google" = false ∧
    (∀ (prompt : String) (d : ChunkData) (ef : Bool), ∃ payload,
      build_message prompt d "openrouter" true ef =
        Message.structured [MsgPart.text prompt, payload]) := by
  refine ⟨by decide, by decide, by decide, by decide, by decide, ?_⟩
  intro prompt d ef
  exact ⟨_, rfl⟩

lemma batchTexts_eq_nil_iff (rh : Bool) (i : Nat) (l : List ChunkOutcome) :
    batchTexts rh i l = [] ↔ l = [] := by
  cases l <;> simp [batchTexts]

lemma processChunksAux_split (rh : Bool) (o : ChunkOutcome) (e : String)
    (ho : convert_chunk o = Except.error e) :
    ∀ (pre post : List ChunkOutcome) (i : Nat) (acc : List String),
      (∀ p ∈ pre, ∃ s, convert_chunk p = Except.ok s) →
      processChunksAux rh (pre ++ o :: post) i acc =
        if acc ++ batchTexts rh i pre = [] then Except.error (i + pre.length, e)
        else Except.ok (strJoinNl (acc ++ batchTexts rh i pre)) := by
  intro pre
  induction pre with
  | nil =>
    intro post i acc _
    simp only [List.nil_append, processChunksAux, ho, batchTexts, List.append_nil,
      List.length_nil, Nat.add_zero]
    by_cases hacc : acc = [] <;> simp [hacc]
  | cons p ps ih =>
    intro post i acc hpre
    obtain ⟨s, hs⟩ := hpre p (List.mem_cons_self p ps)
    have hok : okText p = s := by simp [okText, hs]
    simp only [List.cons_append, processChunksAux, hs, List.append_eq]
    rw [ih post (i + 1) (acc ++ [appliedText rh i s])
      (fun q hq => hpre q (List.mem_cons_of_mem p hq))]
    have harith : i + 1 + ps.length = i + (ps.length + 1) := by omega
    simp only [batchTexts, hok, List.append_assoc, List.singleton_append,
      List.length_cons, harith]

/-- Claim C1: in the batch path, a failure at the first failing chunk raises
`PdfConverterException` carrying the failing chunk index and the cause
exactly when no earlier chunk succeeded (the accumulator is empty); when at
least one earlier chunk succeeded, the call returns the newline-joined
accumulated text of the successful chunks without raising. -/
theorem batch_chunk_failure_policy (rh : Bool) (pre post : List ChunkOutcome)
    (o : ChunkOutcome) (e : String)
    (hpre : ∀ p ∈ pre, ∃ s, convert_chunk p = Except.ok s)
    (ho : convert_chunk o = Except.error e) :
    process_chunks rh (pre ++ o :: post) =
      if pre = [] then Except.error (0, e)
      else Except.ok (strJoinNl (batchTexts rh 0 pre)) := by
  rw [process_chunks, processChunksAux_split rh o e ho pre post 0 [] hpre]
  simp only [List.nil_append, Nat.zero_add]
  by_cases hp : pre = []
  · simp [hp, batchTexts]
  · have hb : batchTexts rh 0 pre ≠ [] := fun hn =>
      hp ((batchTexts_eq_nil_iff rh 0 pre).mp hn)
    simp [hp, hb]

/-- Witness for C1: one successful chunk, then a failing chunk — the call
returns the successful chunk's cleaned text. -/
theorem batch_chunk_failure_policy_w :
    process_chunks false ([ChunkOutcome.ok "h,v\n1,2"] ++ ChunkOutcome.err "boom" :: []) =
      Except.ok "h,v\n1,2" := by
  rw [batch_chunk_failure_policy false [ChunkOutcome.ok "h,v\n1,2"] []
    (ChunkOutcome.err "boom") "boom"
    (by
      intro p hp
      rw [List.mem_singleton] at hp
      subst hp
      exact ⟨"h,v\n1,2", rfl⟩)
    rfl]
  rfl

lemma streamTexts_length (rh : Bool) : ∀ (i : Nat) (l : List ChunkOutcome),
    (streamTexts rh i l).length = l.length := by
  intro i l
  induction l generalizing i with
  | nil => rfl
  | cons p ps ih => simp [streamTexts, ih]

lemma streamLoop_split (rh hout : Bool) (o : ChunkOutcome) (e : String)
    (ho : convert_chunk o = Except.error e) :
    ∀ (pre post : List ChunkOutcome) (i : Nat) (acc : List String),
      (∀ p ∈ pre, ∃ s, convert_chunk p = Except.ok s) →
      streamLoop rh hout (pre ++ o :: post) i acc =
        { yielded := streamTexts rh i pre,
          sinkWritten :=
            if acc ++ streamTexts rh i pre ≠ [] ∧ hout then
              some (i + pre.length, strJoinNl (acc ++ streamTexts rh i pre))
            else none } := by
  intro pre
  induction pre with
  | nil =>
    intro post i acc _
    simp only [List.nil_append, streamLoop, ho, streamTexts, List.append_nil,
      List.length_nil, Nat.add_zero]
  | cons p ps ih =>
    intro post i acc hpre
    obtain ⟨s, hs⟩ := hpre p (List.mem_cons_self p ps)
    have hok : okText p = s := by simp [okText, hs]
    simp only [List.cons_append, streamLoop, hs, List.append_eq]
    rw [ih post (i + 1) (acc ++ [streamAppliedText rh i s])
      (fun q hq => hpre q (List.mem_cons_of_mem p hq))]
    have harith : i + 1 + ps.length = i + (ps.length + 1) := by omega
    simp only [streamTexts, hok, List.append_assoc, List.singleton_append,
      List.length_cons, harith]

/-- Claim C3: in a streaming call with an output path designated, when the
first `k ≥ 1` chunks succeed and the next chunk fails, the consumer observes
exactly the `k` successful chunks' texts as yielded items, the result is
independent of every chunk after the failing one (none is attempted), and a
`partial_k` sink is written holding the `k` texts joined by newline.  The
generator ends by exhaustion: chunk failures are caught in the loop and never
raised to the consumer (the model's `streamLoop` is total, with no error
outcome). -/
theorem streaming_early_stop (rh : Bool) (pre post : List ChunkOutcome)
    (o : ChunkOutcome) (e : String)
    (hpre : ∀ p ∈ pre, ∃ s, convert_chunk p = Except.ok s)
    (ho : convert_chunk o = Except.error e)
    (hk : pre ≠ []) :
    (convert_streaming rh true (pre ++ o :: post)).yielded = streamTexts rh 0 pre ∧
    (convert_streaming rh true (pre ++ o :: post)).yielded.length = pre.length ∧
    (convert_streaming rh true (pre ++ o :: post)).sinkWritten =
      some (pre.length, strJoinNl (streamTexts rh 0 pre)) ∧
    (∀ post', convert_streaming rh true (pre ++ o :: post') =
      convert_streaming rh true (pre ++ o :: post)) := by
  have hne : streamTexts rh 0 pre ≠ [] := by
    intro hn
    have := streamTexts_length rh 0 pre
    rw [hn] at this
    exact hk (List.eq_nil_of_length_eq_zero this.symm)
  have key : ∀ post'' : List ChunkOutcome,
      convert_streaming rh true (pre ++ o :: post'') =
        { yielded := streamTexts rh 0 pre,
          sinkWritten := some (pre.length, strJoinNl (streamTexts rh 0 pre)) } := by
    intro post''
    rw [convert_streaming, streamLoop_split rh true o e ho pre post'' 0 [] hpre]
    simp [hne]
  refine ⟨?_, ?_, ?_, ?_⟩
  · rw [key post]
  · rw [key post]
    exact streamTexts_length rh 0 pre
  · rw [key post]
  · intro post'
    rw [key post, key post']

/-- Witness for C3: chunks 1 and 2 succeed, chunk 3 fails, chunk 4 pending —
the `partial_2` sink holds the two successful chunks joined by newline. -/
theorem streaming_early_stop_w :
    (convert_streaming false true
        ([ChunkOutcome.ok "h,v\n1,2", ChunkOutcome.ok "h,v\n3,4"] ++
          ChunkOutcome.err "x" :: [ChunkOutcome.ok "z"])).sinkWritten =
      some (2, "h,v\n1,2\nh,v\n3,4") := by
  have h := streaming_early_stop false
    [ChunkOutcome.ok "h,v\n1,2", ChunkOutcome.ok "h,v\n3,4"] [ChunkOutcome.ok "z"]
    (ChunkOutcome.err "x") "x"
    (by
      intro p hp
      rcases List.mem_cons.mp hp with h1 | h1
      · subst h1; exact ⟨"h,v\n1,2", rfl⟩
      · rw [List.mem_singleton] at h1
        subst h1
        exact ⟨"h,v\n3,4", rfl⟩)
    rfl
    (by simp)
  rw [h.2.2.1]
  rfl

lemma splitGoFuel_join (total ppc : Nat) (hp : 1 ≤ ppc) :
    ∀ (fuel start : Nat), total - start ≤ fuel →
      ((splitGoFuel total ppc fuel start).map chunkPages).flatten =
        List.range' (start + 1) (total - start) := by
  intro fuel
  induction fuel with
  | zero =>
    intro start h
    have h0 : total - start = 0 := Nat.le_zero.mp h
    simp [splitGoFuel, h0]
  | succ fuel ih =>
    intro start h
    have hcons : splitGoFuel total ppc (fuel + 1) start =
        if start < total then
          ({ start_page := start + 1, end_page := min (start + ppc) total,
             total_pages := total } :: splitGoFuel total ppc fuel (start + ppc))
        else [] := rfl
    by_cases hs : start < total
    · rw [hcons, if_pos hs]
      simp only [List.map_cons, List.flatten_cons]
      rw [ih (start + ppc) (by omega)]
      simp only [chunkPages]
      by_cases hcase : start + ppc ≤ total
      · have h1 : min (start + ppc) total = start + ppc := Nat.min_eq_left hcase
        rw [h1]
        have h2 : start + ppc + 1 - (start + 1) = ppc := by omega
        rw [h2]
        have h3 : start + ppc + 1 = start + 1 + ppc := by omega
        rw [h3, List.range'_append_1]
        congr 1
        omega
      · have h1 : min (start + ppc) total = total := Nat.min_eq_right (by omega)
        rw [h1]
        have h2 : total - (start + ppc) = 0 := by omega
        rw [h2]
        simp only [List.range'_zero, List.append_nil]
        congr 1
        omega
    · have h0 : total - start = 0 := by omega
      rw [hcons, if_neg hs]
      simp [h0]

lemma splitGoFuel_get (total ppc : Nat) (hp : 1 ≤ ppc) :
    ∀ (fuel start : Nat), total - start ≤ fuel →
      ∀ (i : Nat) (hi : i < (splitGoFuel total ppc fuel start).length),
        (splitGoFuel total ppc fuel start).get ⟨i, hi⟩ =
          { start_page := start + i * ppc + 1,
            end_page := min (start + i * ppc + ppc) total,
            total_pages := total } ∧
        start + i * ppc < total := by
  intro fuel
  induction fuel with
  | zero =>
    intro start h i hi
    simp [splitGoFuel] at hi
  | succ fuel ih =>
    intro start h i hi
    have hcons : splitGoFuel total ppc (fuel + 1) start =
        if start < total then
          ({ start_page := start + 1, end_page := min (start + ppc) total,
             total_pages := total } :: splitGoFuel total ppc fuel (start + ppc))
        else [] := rfl
    by_cases hs : start < total
    · revert hi
      rw [hcons, if_pos hs]
      intro hi
      cases i with
      | zero =>
        have e0 : start + 0 * ppc = start := by ring
        refine ⟨?_, by rw [e0]; exact hs⟩
        show ({ start_page := start + 1, end_page := min (start + ppc) total,
                total_pages := total } : PdfChunk) = _
        rw [e0]
      | succ j =>
        have hi' : j < (splitGoFuel total ppc fuel (start + ppc)).length := by
          simp only [List.length_cons] at hi
          exact Nat.lt_of_succ_lt_succ hi
        obtain ⟨hg, hlt⟩ := ih (start + ppc) (by omega) j hi'
        have e : start + ppc + j * ppc = start + (j + 1) * ppc := by ring
        refine ⟨?_, by rw [← e]; exact hlt⟩
        show (splitGoFuel total ppc fuel (start + ppc)).get ⟨j, hi'⟩ = _
        rw [hg, e]
    · revert hi
      rw [hcons, if_neg hs]
      intro hi
      simp at hi

/-- Claim C2: for `totalPages ≥ 1` and `pagesPerChunk ≥ 1`, the planner
produces a non-empty chunk sequence whose i-th chunk starts at page
`1 + i * ppc`, ends at `min (start + ppc - 1) total`, is non-empty, spans at
most `ppc` pages, records the document's page count, and whose page ranges,
concatenated in order, are exactly `[1, …, totalPages]` — contiguous,
non-overlapping, covering the document exactly once. -/
theorem chunk_plan_spec (total ppc : Nat) (h1 : 1 ≤ total) (hp : 1 ≤ ppc) :
    split_into_chunks total ppc = some (planChunks total ppc) ∧
    planChunks total ppc ≠ [] ∧
    (∀ (i : Nat) (hi : i < (planChunks total ppc).length),
      ((planChunks total ppc).get ⟨i, hi⟩).start_page = 1 + i * ppc ∧
      ((planChunks total ppc).get ⟨i, hi⟩).end_page =
        min (((planChunks total ppc).get ⟨i, hi⟩).start_page + ppc - 1) total ∧
      ((planChunks total ppc).get ⟨i, hi⟩).start_page ≤
        ((planChunks total ppc).get ⟨i, hi⟩).end_page ∧
      ((planChunks total ppc).get ⟨i, hi⟩).end_page + 1 -
        ((planChunks total ppc).get ⟨i, hi⟩).start_page ≤ ppc ∧
      ((planChunks total ppc).get ⟨i, hi⟩).total_pages = total) ∧
    ((planChunks total ppc).map chunkPages).flatten = List.range' 1 total := by
  refine ⟨?_, ?_, ?_, ?_⟩
  · have h0 : ¬ ppc = 0 := by omega
    simp [split_into_chunks, h0]
  · cases total with
    | zero => omega
    | succ t =>
      intro hnil
      simp [planChunks, splitGoFuel] at hnil
  · intro i hi
    obtain ⟨hg, hlt⟩ := splitGoFuel_get total ppc hp total 0 (by omega) i hi
    simp only [planChunks]
    rw [hg]
    generalize hk : i * ppc = k at hlt ⊢
    simp only [PdfChunk.mk.injEq]
    refine ⟨by omega, by omega, by omega, by omega, trivial⟩
  · have hj := splitGoFuel_join total ppc hp total 0 (by omega)
    simp only [planChunks]
    simpa using hj

/-- Witness for C2 at a 5-page document with 2 pages per chunk. -/
theorem chunk_plan_spec_w :
    split_into_chunks 5 2 = some (planChunks 5 2) ∧
    planChunks 5 2 ≠ [] ∧
    (∀ (i : Nat) (hi : i < (planChunks 5 2).length),
      ((planChunks 5 2).get ⟨i, hi⟩).start_page = 1 + i * 2 ∧
      ((planChunks 5 2).get ⟨i, hi⟩).end_page =
        min (((planChunks 5 2).get ⟨i, hi⟩).start_page + 2 - 1) 5 ∧
      ((planChunks 5 2).get ⟨i, hi⟩).start_page ≤
        ((planChunks 5 2).get ⟨i, hi⟩).end_page ∧
      ((planChunks 5 2).get ⟨i, hi⟩).end_page + 1 -
        ((planChunks 5 2).get ⟨i, hi⟩).start_page ≤ 2 ∧
      ((planChunks 5 2).get ⟨i, hi⟩).total_pages = 5) ∧
    ((planChunks 5 2).map chunkPages).flatten = List.range' 1 5 :=
  chunk_plan_spec 5 2 (by decide) (by decide)

lemma pyReplaceAux_fuel (pat rep : List Char) :
    ∀ (fuel fuel' : Nat) (s : List Char), s.length ≤ fuel → s.length ≤ fuel' →
      pyReplaceAux pat rep fuel s = pyReplaceAux pat rep fuel' s := by
  intro fuel
  induction fuel with
  | zero =>
    intro fuel' s h _
    have hs : s = [] := List.eq_nil_of_length_eq_zero (Nat.le_zero.mp h)
    subst hs
    cases fuel' <;> rfl
  | succ fuel ih =>
    intro fuel' s h h'
    cases s with
    | nil => cases fuel' <;> rfl
    | cons c rest =>
      cases fuel' with
      | zero => simp at h'
      | succ fuel'' =>
        simp only [List.length_cons, Nat.add_le_add_iff_right] at h h'
        by_cases hc : pat ≠ [] ∧ pat <+: (c :: rest)
        · simp only [pyReplaceAux, if_pos hc]
          congr 1
          apply ih
          · have hpat : 1 ≤ pat.length := List.length_pos.mpr hc.1
            simp only [List.length_drop, List.length_cons]
            omega
          · have hpat : 1 ≤ pat.length := List.length_pos.mpr hc.1
            simp only [List.length_drop, List.length_cons]
            omega
        · simp only [pyReplaceAux, if_neg hc]
          congr 1
          exact ih fuel'' rest h h'

lemma pyReplace_nil (pat rep : List Char) : pyReplace pat rep [] = [] := rfl

lemma pyReplace_cons_pos (pat rep : List Char) (c : Char) (rest : List Char)
    (h : pat ≠ [] ∧ pat <+: (c :: rest)) :
    pyReplace pat rep (c :: rest) = rep ++ pyReplace pat rep ((c :: rest).drop pat.length) := by
  show pyReplaceAux pat rep (rest.length + 1) (c :: rest) = _
  simp only [pyReplaceAux, if_pos h]
  congr 1
  apply pyReplaceAux_fuel
  · have hpat : 1 ≤ pat.length := List.length_pos.mpr h.1
    simp only [List.length_drop, List.length_cons]
    omega
  · exact Nat.le_refl _

lemma pyReplace_cons_neg (pat rep : List Char) (c : Char) (rest : List Char)
    (h : ¬ (pat ≠ [] ∧ pat <+: (c :: rest))) :
    pyReplace pat rep (c :: rest) = c :: pyReplace pat rep rest := by
  show pyReplaceAux pat rep (rest.length + 1) (c :: rest) = _
  simp only [pyReplaceAux, if_neg h]
  rfl

lemma pyReplace_no_occ_aux (pat rep : List Char) (_hpat : pat ≠ []) :
    ∀ (n : Nat) (s : List Char), s.length ≤ n → ¬ (pat <:+: s) → pyReplace pat rep s = s := by
  intro n
  induction n with
  | zero =>
    intro s h _
    have hs : s = [] := List.eq_nil_of_length_eq_zero (Nat.le_zero.mp h)
    subst hs
    rfl
  | succ n ih =>
    intro s h hno
    cases s with
    | nil => rfl
    | cons c rest =>
      have hnp : ¬ (pat ≠ [] ∧ pat <+: (c :: rest)) := fun hc => hno hc.2.isInfix
      rw [pyReplace_cons_neg pat rep c rest hnp]
      have hno' : ¬ (pat <:+: rest) := fun hinf =>
        hno (List.infix_cons_iff.mpr (Or.inr hinf))
      rw [ih rest (by simp only [List.length_cons] at h; omega) hno']

lemma pyReplace_no_occ (pat rep s : List Char) (hpat : pat ≠ []) (h : ¬ (pat <:+: s)) :
    pyReplace pat rep s = s :=
  pyReplace_no_occ_aux pat rep hpat s.length s (Nat.le_refl _) h

lemma head_of_pyReplace3 (b : Char) (s : List Char) :
    (pyReplace [b, b, b] [] s).head? = some b → s.head? = some b := by
  cases s with
  | nil => intro h; simp [pyReplace, pyReplaceAux] at h
  | cons c rest =>
    by_cases hc : ([b, b, b] : List Char) ≠ [] ∧ [b, b, b] <+: (c :: rest)
    · intro _
      have hb : b = c := (List.cons_prefix_cons.mp hc.2).1
      simp [hb]
    · intro h
      rw [pyReplace_cons_neg _ _ _ _ hc] at h
      simpa using h

lemma head2_of_pyReplace3 (b : Char) (s : List Char) :
    [b, b] <+: pyReplace [b, b, b] [] s → [b, b] <+: s := by
  cases s with
  | nil =>
    intro h
    rw [show pyReplace [b, b, b] [] [] = [] from rfl] at h
    simp at h
  | cons c rest =>
    by_cases hc : ([b, b, b] : List Char) ≠ [] ∧ [b, b, b] <+: (c :: rest)
    · intro _
      obtain ⟨hb, h2⟩ := List.cons_prefix_cons.mp hc.2
      exact List.cons_prefix_cons.mpr ⟨hb, (show [b] <+: [b, b] from ⟨[b], rfl⟩).trans h2⟩
    · intro h
      rw [pyReplace_cons_neg _ _ _ _ hc] at h
      obtain ⟨hb, h1⟩ := List.cons_prefix_cons.mp h
      obtain ⟨t, ht⟩ := h1
      have hhead : (pyReplace [b, b, b] [] rest).head? = some b := by
        rw [← ht]; rfl
      have hrest := head_of_pyReplace3 b rest hhead
      cases rest with
      | nil => simp at hrest
      | cons r1 rs =>
        have : r1 = b := by simpa using hrest
        subst this
        exact List.cons_prefix_cons.mpr ⟨hb, ⟨rs, rfl⟩⟩

lemma pyReplace3_no_occ_aux (b : Char) :
    ∀ (n : Nat) (s : List Char), s.length ≤ n →
      ¬ ([b, b, b] <:+: pyReplace [b, b, b] [] s) := by
  intro n
  induction n with
  | zero =>
    intro s h
    have hs : s = [] := List.eq_nil_of_length_eq_zero (Nat.le_zero.mp h)
    subst hs
    rw [pyReplace_nil]
    simp
  | succ n ih =>
    intro s h
    cases s with
    | nil =>
      rw [pyReplace_nil]
      simp
    | cons c rest =>
      simp only [List.length_cons] at h
      by_cases hc : ([b, b, b] : List Char) ≠ [] ∧ [b, b, b] <+: (c :: rest)
      · rw [pyReplace_cons_pos _ _ _ _ hc, List.nil_append]
        apply ih
        simp only [List.length_drop, List.length_cons]
        omega
      · rw [pyReplace_cons_neg _ _ _ _ hc]
        intro hinf
        rcases List.infix_cons_iff.mp hinf with hpre | hinf'
        · obtain ⟨hcb, h2⟩ := List.cons_prefix_cons.mp hpre
          have h2' : [b, b] <+: rest := head2_of_pyReplace3 b rest h2
          exact hc ⟨by simp, List.cons_prefix_cons.mpr ⟨hcb, h2'⟩⟩
        · exact ih rest (by omega) hinf'

lemma pyReplace3_no_occ (b : Char) (s : List Char) :
    ¬ ([b, b, b] <:+: pyReplace [b, b, b] [] s) :=
  pyReplace3_no_occ_aux b s.length s (Nat.le_refl _)

lemma pyStrip_occ_in (l : List Char) : pyStrip l <:+: l := by
  have h1 : l.dropWhile isPySpace <:+ l := List.dropWhile_suffix isPySpace
  have h2 : (l.dropWhile isPySpace).reverse.dropWhile isPySpace <:+
      (l.dropWhile isPySpace).reverse := List.dropWhile_suffix isPySpace
  have h3 : ((l.dropWhile isPySpace).reverse.dropWhile isPySpace).reverse <+:
      l.dropWhile isPySpace := by
    have := List.reverse_prefix.mpr h2
    rwa [List.reverse_reverse] at this
  exact h3.isInfix.trans h1.isInfix

lemma dropWhile_idem (q : Char → Bool) (l : List Char) :
    List.dropWhile q (List.dropWhile q l) = List.dropWhile q l := by
  cases hh : List.dropWhile q l with
  | nil => simp
  | cons a t =>
    have hq : q a = false := by
      have hn := List.head?_dropWhile_not q l
      rw [hh] at hn
      simpa using hn
    simp [List.dropWhile_cons, hq]

lemma pyStrip_idem (l : List Char) : pyStrip (pyStrip l) = pyStrip l := by
  show ((((((l.dropWhile isPySpace).reverse.dropWhile isPySpace).reverse).dropWhile
      isPySpace).reverse.dropWhile isPySpace)).reverse =
    ((l.dropWhile isPySpace).reverse.dropWhile isPySpace).reverse
  have h1 : (((l.dropWhile isPySpace).reverse.dropWhile isPySpace).reverse).dropWhile
      isPySpace = ((l.dropWhile isPySpace).reverse.dropWhile isPySpace).reverse := by
    cases hw : ((l.dropWhile isPySpace).reverse.dropWhile isPySpace).reverse with
    | nil => simp
    | cons a t =>
      have hpre : (a :: t) <+: l.dropWhile isPySpace := by
        have hsfx : (l.dropWhile isPySpace).reverse.dropWhile isPySpace <:+
            (l.dropWhile isPySpace).reverse := List.dropWhile_suffix isPySpace
        have := List.reverse_prefix.mpr hsfx
        rw [List.reverse_reverse] at this
        rwa [hw] at this
      obtain ⟨t', ht'⟩ := hpre
      have hhead : (l.dropWhile isPySpace).head? = some a := by
        rw [← ht']
        rfl
      have hq : isPySpace a = false := by
        have hn := List.head?_dropWhile_not isPySpace l
        rw [hhead] at hn
        exact hn
      simp [List.dropWhile_cons, hq]
  rw [h1, List.reverse_reverse, dropWhile_idem]

/-- Claim C8: response cleaning is idempotent — whenever `clean_response`
succeeds on a (necessarily non-empty) input, applying it to its own result
returns that result unchanged. -/
theorem clean_response_idempotent (x r : String)
    (h : clean_response x = Except.ok r) : clean_response r = Except.ok r := by
  simp only [clean_response] at h
  by_cases hx : x.data = []
  · rw [if_pos hx] at h
    exact absurd h (by simp)
  · rw [if_neg hx] at h
    by_cases hr0 : pyStrip (pyReplace ticks3 [] (pyReplace ticksCsv [] x.data)) = []
    · rw [if_pos hr0] at h
      exact absurd h (by simp)
    · rw [if_neg hr0] at h
      have hrd : String.mk (pyStrip (pyReplace ticks3 [] (pyReplace ticksCsv [] x.data))) = r :=
        Except.ok.inj h
      have hdata : r.data = pyStrip (pyReplace ticks3 [] (pyReplace ticksCsv [] x.data)) := by
        rw [← hrd]
      have hni : ¬ (ticks3 <:+: pyReplace ticks3 [] (pyReplace ticksCsv [] x.data)) :=
        pyReplace3_no_occ '`' (pyReplace ticksCsv [] x.data)
      have hni_r : ¬ (ticks3 <:+: r.data) := by
        intro hinf
        rw [hdata] at hinf
        exact hni (hinf.trans (pyStrip_occ_in _))
      have hcsv_r : ¬ (ticksCsv <:+: r.data) := by
        intro hinf
        exact hni_r ((show ticks3 <+: ticksCsv from ⟨['c', 's', 'v'], rfl⟩).isInfix.trans hinf)
      have hrne : r.data ≠ [] := by
        rw [hdata]
        exact hr0
      simp only [clean_response]
      rw [if_neg hrne]
      rw [pyReplace_no_occ ticksCsv [] r.data (by simp [ticksCsv]) hcsv_r]
      rw [pyReplace_no_occ ticks3 [] r.data (by simp [ticks3]) hni_r]
      have hstrip : pyStrip r.data = r.data := by
        rw [hdata]
        exact pyStrip_idem _
      rw [hstrip, if_neg hrne]

/-- Witness for C8: cleaning a fenced response once yields `"h,v\n1,2"`,
and cleaning that result leaves it unchanged. -/
theorem clean_response_idempotent_w :
    clean_response "h,v\n1,2" = Except.ok "h,v\n1,2" :=
  clean_response_idempotent "```csv\nh,v\n1,2\n```" "h,v\n1,2" (by rfl)
